import Mathlib

/-!
Verification development for the easy-scpi repository
(single source file: src/easy_scpi/scpi_instrument.py).

The Python source is shallowly embedded below:
pure string manipulation becomes Lean functions on String / List Char,
the stateful instrument session becomes explicit state passing on a
Session structure, calls into the pyvisa transport are modelled by a
scripted PyResource value, and Python exceptions become Except errors
that are returned together with the post-state (a raised exception
does not undo mutations that already happened).
-/

namespace EasyScpi

/-! ## Models of the Python string primitives used by the source

Only the ASCII behaviour of str.upper / str.lower / re.IGNORECASE is
modelled; every string appearing in the source and in the claims is
ASCII. -/

/-- Model of Python str.upper on one character (ASCII range). -/
def upChar (c : Char) : Char :=
  if 97 ≤ c.toNat ∧ c.toNat ≤ 122 then Char.ofNat (c.toNat - 32) else c

/-- Model of Python str.lower on one character (ASCII range). -/
def lowChar (c : Char) : Char :=
  if 65 ≤ c.toNat ∧ c.toNat ≤ 90 then Char.ofNat (c.toNat + 32) else c

/-- Model of Python str.upper. -/
def upStr (s : String) : String := String.mk (s.data.map upChar)

/-- Model of Python str.lower. -/
def lowStr (s : String) : String := String.mk (s.data.map lowChar)

/-- Boolean prefix test on character lists (model of str.startswith). -/
def startsL : List Char → List Char → Bool
  | [], _ => true
  | _ :: _, [] => false
  | p :: ps, c :: cs => p == c && startsL ps cs

/-- Model of Python s.startswith(p). -/
def startsWithS (s p : String) : Bool := startsL p.data s.data

/-- Model of Python s.endswith(p). -/
def endsWithS (s p : String) : Bool := startsL p.data.reverse s.data.reverse

/-- Model of Python sep.join(xs). -/
def joinSep (sep : String) : List String → String
  | [] => ""
  | [a] => a
  | a :: b :: rest => a ++ sep ++ joinSep sep (b :: rest)

/-- Model of the Python expression port.replace("COM", "") used by
_set_port_windows: removes every (case sensitive, non overlapping,
left to right) occurrence of "COM". -/
def replaceCOM : List Char → List Char
  | 'C' :: 'O' :: 'M' :: rest => replaceCOM rest
  | c :: cs => c :: replaceCOM cs
  | [] => []

/-! ## Property (the SCPI command node), lines 30 to 106 of the source -/

/-- Embedding of class Property.  The instrument back reference held by
the Python object only serves to dispatch the final call and plays no
part in building the command string, so it is not a field here; the
dispatch itself is modelled on Session further below. -/
structure Property where
  name : String
  argSeparator : String
deriving DecidableEq, Repr

/-- Embedding of Property.__init__ (which uppercases the name). -/
def Property.ofName (name : String) (argSeparator : String) : Property :=
  { name := upStr name, argSeparator := argSeparator }

/-- Embedding of Property.__getattr__: a child node whose name is
":".join((self.name, name.upper())), passed through __init__ (which
uppercases once more). -/
def Property.child (p : Property) (name : String) : Property :=
  Property.ofName (p.name ++ ":" ++ upStr name) p.argSeparator

/-- Chain of attribute accesses starting at a node. -/
def chainFrom (p : Property) (names : List String) : Property :=
  names.foldl Property.child p

/-- Embedding of Property.__call__, lines 60 to 73.  The *values tuple
arrives already stringified (map str is the identity on the string
arguments the claims are about); the result is the pair
(acts as query, message sent to the instrument). -/
def Property.callMsg (p : Property) (values : List String) (query : Option Bool) :
    Bool × String :=
  let argsPassed : Bool := values.length > 0
  let args : String := if argsPassed then " " ++ joinSep p.argSeparator values else ""
  let q : Bool := query.getD (!argsPassed)
  if q then (true, p.name ++ "?" ++ args) else (false, p.name ++ args)

/-! ## val2bool / val2state, lines 75 to 106 -/

/-- A Python value accepted by Property.val2bool: a string, a bool, or
a number (modelled by Int; Python bool(n) is n different from 0). -/
inductive PyVal
  | str (s : String)
  | bool (b : Bool)
  | int (n : Int)
deriving DecidableEq, Repr

/-- Errors raised by the embedded code.  Each constructor corresponds
to one raise site (or to a pyvisa exception the source itself relies
on, see Session below). -/
inductive Err
  | notConnected
  | notAddressed
  | invalidSession
  | noData
  | handshakeFailure (received : String)
  | typeError (method : String)
  | valueError (msg : String)
deriving DecidableEq, Repr

/-- Embedding of Property.val2bool. -/
def val2bool : PyVal → Except Err Bool
  | PyVal.str v =>
    let v := lowStr v
    if v = "on" ∨ v = "1" then Except.ok true
    else if v = "off" ∨ v = "0" then Except.ok false
    else Except.error (Err.valueError "Invalid input")
  | PyVal.bool b => Except.ok b
  | PyVal.int n => Except.ok (decide (n ≠ 0))

/-- Embedding of Property.val2state. -/
def val2state (v : PyVal) : Except Err String :=
  match val2bool v with
  | Except.ok true => Except.ok "ON"
  | Except.ok false => Except.ok "OFF"
  | Except.error e => Except.error e

/-! ## Port resolution, lines 386 to 486

The source builds a textual regular expression and matches it with
re.match(pattern, resource, re.IGNORECASE).  The patterns the code
builds only use literal text, one optional literal group (?:COM)? and
one greedy wildcard .* — they are embedded as a small syntax Re below
(capture groups have no effect on what re.match accepts or on group(0)
and are dropped).  re.match anchors at the start of the string only,
and match.group(0) is the matched prefix. -/

/-- The regular expression constructs appearing in the patterns built
by _set_port_windows and _set_port_linux. -/
inductive Re
  | lit (s : String)
  | optLit (s : String)
  | dotStar
deriving DecidableEq, Repr

/-- Case insensitive literal prefix strip (model of matching a regex
literal under re.IGNORECASE); returns the rest of the input. -/
def stripCI : List Char → List Char → Option (List Char)
  | [], cs => some cs
  | _ :: _, [] => none
  | p :: ps, c :: cs => if lowChar p = lowChar c then stripCI ps cs else none

/-- Backtracking matcher for a sequence of Re constructs, anchored at
the start of the input; returns the remaining (unmatched) suffix of
the first match found in Python's preference order (greedy: an
optional group and the wildcard prefer to consume more). -/
def matchSeq : List Re → List Char → Option (List Char)
  | [], cs => some cs
  | Re.lit s :: rest, cs =>
    match stripCI s.data cs with
    | some cs2 => matchSeq rest cs2
    | none => none
  | Re.optLit s :: rest, cs =>
    match stripCI s.data cs with
    | some cs2 =>
      match matchSeq rest cs2 with
      | some r => some r
      | none => matchSeq rest cs
    | none => matchSeq rest cs
  | Re.dotStar :: rest, cs =>
    (List.range (cs.length + 1)).reverse.findSome? (fun k => matchSeq rest (List.drop k cs))

/-- Model of re.match(pattern, s, re.IGNORECASE) followed by .group(0):
some (matched prefix) on success, none when the pattern does not match
at the start of s. -/
def reMatch (pat : List Re) (s : String) : Option String :=
  match matchSeq pat s.data with
  | some rem => some (String.mk (s.data.take (s.data.length - rem.length)))
  | none => none

/-- Errors raised by the port resolution code (the source raises
RuntimeError with distinct messages for the two match failures and
ValueError for an unsupported prefix). -/
inductive ResErr
  | unsupportedPort
  | resourceNotFound
  | ambiguousResource
deriving DecidableEq, Repr

/-- Embedding of SCPI_Instrument._match_resource, lines 466 to 486:
keep the non-None matches of the pattern over the visible resource
list, demand exactly one, and return that match's group(0). -/
def matchResource (pat : List Re) (resources : List String) : Except ResErr String :=
  match resources.filterMap (reMatch pat) with
  | [] => Except.error ResErr.resourceNotFound
  | [r] => Except.ok r
  | _ => Except.error ResErr.ambiguousResource

/-- The accepted Windows port prefixes, line 395. -/
def winPrefixList : List String := ["COM", "USB", "GPIB", "TCPIP"]

/-- Embedding of the pattern construction in _set_port_windows, lines
395 to 421 (the branch structure of the source: bus style ports first,
then COM ports; the port name comparison is on port.upper() while the
pattern keeps the original casing). -/
def buildPatternWindows (port : String) : Except ResErr (List Re) :=
  let portName := upStr port
  if ¬ winPrefixList.any (fun p => startsWithS portName p) then
    Except.error ResErr.unsupportedPort
  else if (winPrefixList.drop 1).any (fun p => startsWithS portName p) then
    Except.ok
      (if endsWithS portName "INSTR" || endsWithS portName "SOCKET" then
        [Re.lit port]
      else
        [Re.lit port, Re.lit "::", Re.dotStar, Re.lit "::INSTR"])
  else
    Except.ok
      [Re.lit "ASRL", Re.optLit "COM", Re.lit (String.mk (replaceCOM port.data)),
       Re.lit "::INSTR"]

/-- Port resolution on Windows with port_match enabled: build the
pattern, then disambiguate it against the visible resource list
(_set_port_windows line 424 with match = True). -/
def resolveWindows (port : String) (resources : List String) : Except ResErr String :=
  match buildPatternWindows port with
  | Except.ok pat => matchResource pat resources
  | Except.error e => Except.error e

/-! ## The instrument session, lines 109 to 526

The pyvisa resource held by the session is modelled as a scripted
value: a queue of read responses plus a log of the transport
operations performed, and an open flag.  Operations on a closed
resource raise InvalidSession (the source itself relies on this
pyvisa behaviour: the connected property, line 271 to 276, catches
visa.InvalidSession coming from accessing .session of a closed
resource). -/

/-- One transport operation as recorded in the log. -/
inductive TOp
  | write (msg : String)
  | read
  | query (msg : String)
  | readRaw
  | queryAscii (msg : String)
  | queryBinary (msg : String)
deriving DecidableEq, Repr

/-- Whether the pyvisa resource class is message based (pyvisa
MessageBasedResource versus a register based resource). -/
inductive InstKind
  | messageBased
  | registerBased
deriving DecidableEq, Repr

/-- Model of an opened pyvisa resource. -/
structure PyResource where
  kind : InstKind
  sessionOpen : Bool
  params : List (String × String)
  reads : List String
  log : List TOp
deriving DecidableEq, Repr

/-- Transport write: logs the operation and returns the byte count
(modelled as the message length). -/
def PyResource.doWrite (r : PyResource) (msg : String) : PyResource × Except Err Nat :=
  if r.sessionOpen then
    ({ r with log := r.log ++ [TOp.write msg] }, Except.ok msg.length)
  else (r, Except.error Err.invalidSession)

/-- Transport read: pops the next scripted response (an empty script
models a transport timeout). -/
def PyResource.doRead (r : PyResource) : PyResource × Except Err String :=
  if r.sessionOpen then
    match r.reads with
    | [] => (r, Except.error Err.noData)
    | h :: t => ({ r with reads := t, log := r.log ++ [TOp.read] }, Except.ok h)
  else (r, Except.error Err.invalidSession)

/-- Transport query: logs the operation and pops the next scripted
response. -/
def PyResource.doQuery (r : PyResource) (msg : String) : PyResource × Except Err String :=
  if r.sessionOpen then
    match r.reads with
    | [] => (r, Except.error Err.noData)
    | h :: t => ({ r with reads := t, log := r.log ++ [TOp.query msg] }, Except.ok h)
  else (r, Except.error Err.invalidSession)

/-- Transport raw read (read_raw on the resource). -/
def PyResource.doReadRaw (r : PyResource) : PyResource × Except Err String :=
  if r.sessionOpen then
    match r.reads with
    | [] => (r, Except.error Err.noData)
    | h :: t => ({ r with reads := t, log := r.log ++ [TOp.readRaw] }, Except.ok h)
  else (r, Except.error Err.invalidSession)

/-- Transport query_ascii_values. -/
def PyResource.doQueryAscii (r : PyResource) (msg : String) :
    PyResource × Except Err String :=
  if r.sessionOpen then
    match r.reads with
    | [] => (r, Except.error Err.noData)
    | h :: t => ({ r with reads := t, log := r.log ++ [TOp.queryAscii msg] }, Except.ok h)
  else (r, Except.error Err.invalidSession)

/-- Transport query_binary_values. -/
def PyResource.doQueryBinary (r : PyResource) (msg : String) :
    PyResource × Except Err String :=
  if r.sessionOpen then
    match r.reads with
    | [] => (r, Except.error Err.noData)
    | h :: t => ({ r with reads := t, log := r.log ++ [TOp.queryBinary msg] }, Except.ok h)
  else (r, Except.error Err.invalidSession)

/-- Closing a pyvisa resource; a second close on the same resource
raises InvalidSession (close reads .session, which raises once the
handle is invalid — the same exception the source catches in the
connected property). -/
def PyResource.close (r : PyResource) : PyResource × Except Err Unit :=
  if r.sessionOpen then ({ r with sessionOpen := false }, Except.ok ())
  else (r, Except.error Err.invalidSession)

/-- Embedding of the SCPI_Instrument state.  The pyvisa resource
manager is an external collaborator; where the source asks it to open
a resource, the opened resource is passed in as an argument. -/
structure Session where
  inst : Option PyResource
  rid : Option String
  handshake : Option String
  argSeparator : String
  prefixCmds : Bool
  resourceParams : List (String × String)
deriving DecidableEq, Repr

/-- Embedding of the connected property, lines 263 to 276: False when
no resource object exists, otherwise whether the session handle is
still valid. -/
def Session.connectedB (s : Session) : Bool :=
  match s.inst with
  | none => false
  | some r => r.sessionOpen

/-- Truthiness of self.handshake (a Python str or False): False and
the empty string are falsy. -/
def Session.handshakeOn (s : Session) : Bool :=
  match s.handshake with
  | none => false
  | some t => t ≠ ""

/-- Embedding of SCPI_Instrument.read, lines 329 to 340 (the lock is
modelled separately, see the concurrency section). -/
def Session.readOp (s : Session) : Session × Except Err String :=
  match s.inst with
  | none => (s, Except.error Err.notConnected)
  | some r =>
    let p := r.doRead
    ({ s with inst := some p.1 }, p.2)

/-- Embedding of SCPI_Instrument._handle_handshake, lines 375 to 384:
when handshake is truthy, perform one self.read() and raise carrying
the received text when it differs from the token. -/
def Session.handleHandshake (s : Session) : Session × Except Err Unit :=
  match s.handshake with
  | none => (s, Except.ok ())
  | some t =>
    if t = "" then (s, Except.ok ())
    else
      match s.readOp with
      | (s2, Except.ok hs) =>
        if hs = t then (s2, Except.ok ()) else (s2, Except.error (Err.handshakeFailure hs))
      | (s2, Except.error e) => (s2, Except.error e)

/-- Embedding of SCPI_Instrument.write, lines 313 to 327. -/
def Session.writeOp (s : Session) (msg : String) : Session × Except Err Nat :=
  match s.inst with
  | none => (s, Except.error Err.notConnected)
  | some r =>
    match r.doWrite msg with
    | (r2, Except.ok n) =>
      match Session.handleHandshake { s with inst := some r2 } with
      | (s3, Except.ok _) => (s3, Except.ok n)
      | (s3, Except.error e) => (s3, Except.error e)
    | (r2, Except.error e) => ({ s with inst := some r2 }, Except.error e)

/-- Embedding of SCPI_Instrument.query, lines 342 to 355. -/
def Session.queryOp (s : Session) (msg : String) : Session × Except Err String :=
  match s.inst with
  | none => (s, Except.error Err.notConnected)
  | some r =>
    match r.doQuery msg with
    | (r2, Except.ok resp) =>
      match Session.handleHandshake { s with inst := some r2 } with
      | (s3, Except.ok _) => (s3, Except.ok resp)
      | (s3, Except.error e) => (s3, Except.error e)
    | (r2, Except.error e) => ({ s with inst := some r2 }, Except.error e)

/-- Embedding of SCPI_Instrument.disconnect, lines 306 to 311: close
the resource whenever a resource object exists (whether or not its
session is still valid). -/
def Session.disconnect (s : Session) : Session × Except Err Unit :=
  match s.inst with
  | none => (s, Except.ok ())
  | some r =>
    let p := r.close
    ({ s with inst := some p.1 }, p.2)

/-- Embedding of SCPI_Instrument.__del__, lines 162 to 170: disconnect
only when still connected (then drop the references, which does not
affect the observable state modelled here). -/
def Session.teardown (s : Session) : Session × Except Err Unit :=
  if s.connectedB then s.disconnect else (s, Except.ok ())

/-- Embedding of SCPI_Instrument.connect, lines 285 to 304.  fresh is
the resource the external resource manager returns from
open_resource(self.rid); on a reconnect the existing resource is
reopened instead.  explicitRemote none models the default
explicit_remote = False (query *IDN? through self.id); some msg models
an explicit remote command string (written through self.write). -/
def Session.connect (s : Session) (explicitRemote : Option String)
    (fresh : PyResource) : Session × Except Err Unit :=
  if s.rid = none ∨ s.rid = some "" then (s, Except.error Err.notAddressed)
  else
    let s1 : Session :=
      match s.inst with
      | none =>
        { s with inst := some { fresh with sessionOpen := true, params := s.resourceParams } }
      | some r => { s with inst := some { r with sessionOpen := true } }
    match explicitRemote with
    | none =>
      match s1.queryOp "*IDN?" with
      | (s2, Except.ok _) => (s2, Except.ok ())
      | (s2, Except.error e) => (s2, Except.error e)
    | some msg =>
      match s1.writeOp msg with
      | (s2, Except.ok _) => (s2, Except.ok ())
      | (s2, Except.error e) => (s2, Except.error e)

/-! ## The requires_message_based decorator, lines 12 to 26

The decorator is a module level function, so the name __inst inside it
is not mangled to _SCPI_Instrument__inst.  An SCPI_Instrument instance
stores the resource only under the mangled name, so the lookup of
plain __inst misses the instance dictionary and lands in
SCPI_Instrument.__getattr__ (lines 172 to 176), which returns a
Property named after the looked up attribute. -/

/-- A Python attribute lookup result: either a real resource object or
a Property produced by the dynamic __getattr__ fallback. -/
inductive PyAttrVal
  | res (r : PyResource)
  | prop (p : Property)
deriving DecidableEq, Repr

/-- Embedding of SCPI_Instrument.__getattr__, lines 172 to 176. -/
def Session.getattrFallback (s : Session) (name : String) : Property :=
  Property.ofName ((if s.prefixCmds then ":" else "") ++ name) s.argSeparator

/-- What the expression self.__inst evaluates to inside the decorator
wrapper: the mangled attribute is invisible, so __getattr__ yields a
Property — never the resource, whatever the session holds. -/
def Session.dunderInstFromOutside (s : Session) : PyAttrVal :=
  PyAttrVal.prop (s.getattrFallback "__inst")

/-- Model of isinstance(x, MessageBasedResource). -/
def isinstanceMessageBased : PyAttrVal → Bool
  | PyAttrVal.res r => r.kind == InstKind.messageBased
  | PyAttrVal.prop _ => false

/-- Embedding of read_raw, lines 488 to 494, together with its
requires_message_based wrapper. -/
def Session.readRawOp (s : Session) : Session × Except Err String :=
  if ¬ isinstanceMessageBased s.dunderInstFromOutside then
    (s, Except.error (Err.typeError "read_raw"))
  else
    match s.inst with
    | none => (s, Except.error Err.notConnected)
    | some r =>
      let p := r.doReadRaw
      ({ s with inst := some p.1 }, p.2)

/-- Embedding of query_ascii_values, lines 496 to 510, together with
its requires_message_based wrapper. -/
def Session.queryAsciiOp (s : Session) (msg : String) : Session × Except Err String :=
  if ¬ isinstanceMessageBased s.dunderInstFromOutside then
    (s, Except.error (Err.typeError "query_ascii_values"))
  else
    match s.inst with
    | none => (s, Except.error Err.notConnected)
    | some r =>
      match r.doQueryAscii msg with
      | (r2, Except.ok resp) =>
        match Session.handleHandshake { s with inst := some r2 } with
        | (s3, Except.ok _) => (s3, Except.ok resp)
        | (s3, Except.error e) => (s3, Except.error e)
      | (r2, Except.error e) => ({ s with inst := some r2 }, Except.error e)

/-- Embedding of query_binary_values, lines 512 to 526, together with
its requires_message_based wrapper. -/
def Session.queryBinaryOp (s : Session) (msg : String) : Session × Except Err String :=
  if ¬ isinstanceMessageBased s.dunderInstFromOutside then
    (s, Except.error (Err.typeError "query_binary_values"))
  else
    match s.inst with
    | none => (s, Except.error Err.notConnected)
    | some r =>
      match r.doQueryBinary msg with
      | (r2, Except.ok resp) =>
        match Session.handleHandshake { s with inst := some r2 } with
        | (s3, Except.ok _) => (s3, Except.ok resp)
        | (s3, Except.error e) => (s3, Except.error e)
      | (r2, Except.error e) => ({ s with inst := some r2 }, Except.error e)

/-! ## Concurrency: the session lock, line 160 and lines 313 to 355

write, read and query wrap their transport call in with self._lock
(a threading.RLock), and the handshake read performed inside write and
query re-enters the same lock through self.read().  This is modelled
by an interleaving semantics: each of two threads (named by Bool) runs
the fixed list of atomic actions its operation performs — lock
acquire, lock release, transport call — and a scheduler chooses at
every step which thread acts; an acquire by a non owner blocks (the
blocked thread simply cannot move), and a transport call is one atomic
action, so the observable serialization content is which thread's
transport calls come when. -/

/-- An atomic action of a thread inside a session operation. -/
inductive CAct
  | acquire
  | release
  | tcall (op : TOp)
deriving DecidableEq, Repr

/-- Action list of SCPI_Instrument.write: take the lock, transport
write, and under a truthy handshake re-enter the lock (self.read()),
transport read, release the inner level, then release the outer
level. -/
def writeActs (hs : Bool) (msg : String) : List CAct :=
  [CAct.acquire, CAct.tcall (TOp.write msg)] ++
    (if hs then [CAct.acquire, CAct.tcall TOp.read, CAct.release] else []) ++
    [CAct.release]

/-- Action list of SCPI_Instrument.read (no handshake follow up). -/
def readActs : List CAct := [CAct.acquire, CAct.tcall TOp.read, CAct.release]

/-- Action list of SCPI_Instrument.query (same shape as write). -/
def queryActs (hs : Bool) (msg : String) : List CAct :=
  [CAct.acquire, CAct.tcall (TOp.query msg)] ++
    (if hs then [CAct.acquire, CAct.tcall TOp.read, CAct.release] else []) ++
    [CAct.release]

/-- A session operation a thread may run. -/
inductive OpChoice
  | wr (msg : String)
  | rd
  | qu (msg : String)
deriving DecidableEq, Repr

/-- The action list of an operation under handshake mode hs. -/
def actsOf (hs : Bool) : OpChoice → List CAct
  | OpChoice.wr msg => writeActs hs msg
  | OpChoice.rd => readActs
  | OpChoice.qu msg => queryActs hs msg

/-- A re-entrant lock (model of threading.RLock): owning thread and
hold count. -/
structure RL where
  owner : Option Bool
  count : Nat
deriving DecidableEq, Repr

/-- One lock transition for thread t performing an action; none means
the action blocks (acquire while another thread owns the lock). -/
def lockStep (l : RL) (t : Bool) : CAct → Option RL
  | CAct.acquire =>
    match l.owner with
    | none => some { owner := some t, count := 1 }
    | some o => if o = t then some { owner := some t, count := l.count + 1 } else none
  | CAct.release =>
    match l.owner with
    | some o =>
      if o = t then
        some (if l.count ≤ 1 then { owner := none, count := 0 }
          else { owner := some t, count := l.count - 1 })
      else none
    | none => none
  | CAct.tcall _ => some l

/-- Interleaving configuration: the lock, both threads' remaining
actions, and the thread id projection of the transport calls performed
so far. -/
structure Config where
  lock : RL
  rem0 : List CAct
  rem1 : List CAct
  tseq : List Bool
deriving DecidableEq, Repr

/-- Remaining actions of a thread. -/
def Config.remOf (c : Config) : Bool → List CAct
  | false => c.rem0
  | true => c.rem1

/-- Replace the remaining actions of a thread. -/
def Config.setRem (c : Config) : Bool → List CAct → Config
  | false, l => { c with rem0 := l }
  | true, l => { c with rem1 := l }

/-- Whether an action is a transport call. -/
def isTcall : CAct → Bool
  | CAct.tcall _ => true
  | _ => false

/-- One scheduler step: thread t performs its next action if it has
one and the lock admits it; otherwise the configuration is
unchanged. -/
def stepThread (c : Config) (t : Bool) : Config :=
  match c.remOf t with
  | [] => c
  | a :: rest =>
    match lockStep c.lock t a with
    | none => c
    | some l2 =>
      { c.setRem t rest with lock := l2, tseq := if isTcall a then c.tseq ++ [t] else c.tseq }

/-- Run a whole schedule (the list of thread choices). -/
def runSched (c : Config) : List Bool → Config
  | [] => c
  | t :: ts => runSched (stepThread c t) ts

/-- Whether a thread can move in a configuration. -/
def enabledT (c : Config) (t : Bool) : Bool :=
  match c.remOf t with
  | [] => false
  | a :: _ => (lockStep c.lock t a).isSome

/-- Number of adjacent thread switches in the transport call id
sequence; at most one switch means one thread's transport calls all
precede the other's — they never interleave. -/
def switches : List Bool → Nat
  | a :: b :: rest => (if a = b then 0 else 1) + switches (b :: rest)
  | _ => 0

/-- Switch cost of appending one more transport call id to the
sequence: zero when it extends the last block, one otherwise. -/
def lastPenalty (l : List Bool) (t : Bool) : Nat :=
  match l.getLast? with
  | none => 0
  | some a => if a = t then 0 else 1

/-- Acquires contained in an action list. -/
def acqCount : List CAct → Nat
  | [] => 0
  | CAct.acquire :: rest => acqCount rest + 1
  | _ :: rest => acqCount rest

/-- Releases contained in an action list. -/
def relCount : List CAct → Nat
  | [] => 0
  | CAct.release :: rest => relCount rest + 1
  | _ :: rest => relCount rest

/-- Releases minus acquires remaining: for a suffix of a critical
section shaped program this is the number of lock levels the thread
currently holds. -/
def depthN (l : List CAct) : Int := (relCount l : Int) - (acqCount l : Int)

/-- Whether an action list still contains a transport call. -/
def hasT (l : List CAct) : Bool := l.any isTcall

/-- Head tests used by the critical section shape check. -/
def headTcall : List CAct → Bool
  | CAct.tcall _ :: _ => true
  | _ => false

/-- Whether the first action is a release. -/
def headRelease : List CAct → Bool
  | CAct.release :: _ => true
  | _ => false

/-- A program is critical section shaped: balanced lock use, every
transport call and every release strictly inside the lock, and no
proper nonempty suffix at depth zero (one single critical section
spanning the whole program). -/
def csShaped (p : List CAct) : Bool :=
  (depthN p == 0) && p.tails.all (fun l =>
    (!headTcall l || decide (0 < depthN l)) &&
    (!headRelease l || decide (0 < depthN l)) &&
    (!(depthN l == 0) || (l.isEmpty || l.length == p.length)))

/-- The program of each thread. -/
def progOf (P0 P1 : List CAct) : Bool → List CAct
  | false => P0
  | true => P1

/-- Initial configuration: free lock, both operations pending, no
transport call yet. -/
def initConfig (hs : Bool) (op0 op1 : OpChoice) : Config :=
  { lock := { owner := none, count := 0 },
    rem0 := actsOf hs op0, rem1 := actsOf hs op1, tseq := [] }

/-- The inductive invariant of the interleaving system: each thread's
remaining actions are a suffix of its program; the lock count agrees
with the owner's remaining depth and non owners are at depth zero; the
transport call sequence never interleaves; and a thread that has
already made a transport call and still has one pending owns the lock
and was the last to make one. -/
structure Inv (P0 P1 : List CAct) (c : Config) : Prop where
  suf : ∀ u : Bool, c.remOf u <:+ progOf P0 P1 u
  ownNone : c.lock.owner = none → c.lock.count = 0 ∧ ∀ u : Bool, depthN (c.remOf u) = 0
  ownSome : ∀ u : Bool, c.lock.owner = some u →
    (c.lock.count : Int) = depthN (c.remOf u) ∧ 0 < c.lock.count ∧
      depthN (c.remOf (!u)) = 0
  traceOK : switches c.tseq ≤ 1
  active : ∀ u : Bool, u ∈ c.tseq → hasT (c.remOf u) = true →
    c.lock.owner = some u ∧ c.tseq.getLast? = some u

/-! ## Concrete demonstration values used by witnesses and counterexamples -/

/-- An open message based resource with no scripted reads. -/
def demoResource : PyResource :=
  { kind := InstKind.messageBased, sessionOpen := true, params := [], reads := [], log := [] }

/-- A connected session without handshake. -/
def demoConnected : Session :=
  { inst := some demoResource, rid := some "ASRL3::INSTR", handshake := none,
    argSeparator := ",", prefixCmds := false, resourceParams := [] }

/-- A session that never obtained a transport object. -/
def demoUnconnected : Session :=
  { inst := none, rid := some "ASRL3::INSTR", handshake := none,
    argSeparator := ",", prefixCmds := false, resourceParams := [] }

/-- An open resource scripted to answer ERR to the next read. -/
def demoHsResource : PyResource :=
  { demoResource with reads := ["ERR"] }

/-- A connected session with handshake token OK whose instrument will
answer ERR. -/
def demoHsSession : Session :=
  { demoConnected with inst := some demoHsResource, handshake := some "OK" }

/-- A fresh resource as returned by open_resource, scripted to answer
the identification query and then a bad handshake. -/
def demoFresh : PyResource :=
  { kind := InstKind.messageBased, sessionOpen := false, params := [],
    reads := ["EASY-SCPI,MOCK,0,1.0", "BAD"], log := [] }

/-- An addressed but unconnected session with handshake token OK. -/
def demoConnectSession : Session :=
  { inst := none, rid := some "USB0::1234::5678::INSTR", handshake := some "OK",
    argSeparator := ",", prefixCmds := false, resourceParams := [("timeout", "5000")] }

/-- The pattern _set_port_windows builds for port COM3. -/
def comPat3 : List Re :=
  [Re.lit "ASRL", Re.optLit "COM", Re.lit "3", Re.lit "::INSTR"]

/-! ## Helper lemmas about the string models -/

theorem toNat_ofNat_valid (n : Nat) (h : n < 55296) : (Char.ofNat n).toNat = n := by
  have hv : n.isValidChar := Or.inl h
  rw [Char.ofNat, dif_pos hv]
  simp [Char.ofNatAux, Char.toNat, UInt32.toNat, BitVec.toNat_ofNatLt]

theorem upChar_idem (c : Char) : upChar (upChar c) = upChar c := by
  unfold upChar
  by_cases h : 97 ≤ c.toNat ∧ c.toNat ≤ 122
  · rw [if_pos h]
    have ht : (Char.ofNat (c.toNat - 32)).toNat = c.toNat - 32 :=
      toNat_ofNat_valid _ (by omega)
    rw [if_neg]
    rw [ht]
    omega
  · rw [if_neg h, if_neg h]

theorem upStr_append (s t : String) : upStr (s ++ t) = upStr s ++ upStr t := by
  cases s with
  | mk a =>
    cases t with
    | mk b =>
      simp [upStr]
      rfl

theorem upStr_idem (s : String) : upStr (upStr s) = upStr s := by
  cases s with
  | mk a => simp [upStr, List.map_map, Function.comp_def, upChar_idem]

theorem upStr_colon : upStr ":" = ":" := by rfl

theorem joinSep_glue (sep x y : String) (l : List String) :
    joinSep sep ((x ++ sep ++ y) :: l) = x ++ sep ++ joinSep sep (y :: l) := by
  cases l with
  | nil => rfl
  | cons a t => simp [joinSep, String.append_assoc]

theorem child_name (p : Property) (a : String) (h : upStr p.name = p.name) :
    (p.child a).name = p.name ++ ":" ++ upStr a := by
  show upStr (p.name ++ ":" ++ upStr a) = p.name ++ ":" ++ upStr a
  rw [upStr_append, upStr_append, h, upStr_colon, upStr_idem]

theorem chainFrom_name (names : List String) (p : Property)
    (h : upStr p.name = p.name) :
    (chainFrom p names).name = joinSep ":" (p.name :: names.map upStr) := by
  induction names generalizing p with
  | nil => rfl
  | cons a rest ih =>
    have hchild := child_name p a h
    have hfix : upStr (p.child a).name = (p.child a).name := by
      show upStr (upStr (p.name ++ ":" ++ upStr a)) = upStr (p.name ++ ":" ++ upStr a)
      exact upStr_idem _
    show (chainFrom (p.child a) rest).name = _
    rw [ih (p.child a) hfix, hchild, List.map_cons, joinSep_glue]
    rfl

/-! ## Helper lemmas about the matcher and the resolver -/

theorem reMatch_matched_is_start (pat : List Re) (s r : String)
    (h : reMatch pat s = some r) : ∃ t, r.data ++ t = s.data := by
  unfold reMatch at h
  cases hm : matchSeq pat s.data with
  | none => rw [hm] at h; cases h
  | some rem =>
    rw [hm] at h
    injection h with h2
    refine ⟨s.data.drop (s.data.length - rem.length), ?_⟩
    rw [← h2]
    exact List.take_append_drop _ _

theorem exists_source_of_filterMap_eq (f : String → Option String)
    (rs : List String) (r : String) (h : rs.filterMap f = [r]) :
    ∃ res ∈ rs, f res = some r := by
  have hmem : r ∈ rs.filterMap f := by
    rw [h]
    exact List.mem_singleton_self r
  exact List.mem_filterMap.mp hmem

theorem matchResource_ok_iff (pat : List Re) (rs : List String) (r : String) :
    matchResource pat rs = Except.ok r ↔ rs.filterMap (reMatch pat) = [r] := by
  unfold matchResource
  rcases hm : rs.filterMap (reMatch pat) with _ | ⟨a, _ | ⟨b, u⟩⟩ <;> simp

theorem matchResource_notFound_iff (pat : List Re) (rs : List String) :
    matchResource pat rs = Except.error ResErr.resourceNotFound ↔
      rs.filterMap (reMatch pat) = [] := by
  unfold matchResource
  rcases hm : rs.filterMap (reMatch pat) with _ | ⟨a, _ | ⟨b, u⟩⟩ <;> simp

theorem matchResource_ambiguous_iff (pat : List Re) (rs : List String) :
    matchResource pat rs = Except.error ResErr.ambiguousResource ↔
      2 ≤ (rs.filterMap (reMatch pat)).length := by
  unfold matchResource
  rcases hm : rs.filterMap (reMatch pat) with _ | ⟨a, _ | ⟨b, u⟩⟩ <;> simp

/-! ## Helper lemmas for the interleaving model -/

theorem csShaped_actsOf (hs : Bool) (op : OpChoice) : csShaped (actsOf hs op) = true := by
  cases op <;> cases hs <;> rfl

theorem csShaped_facts (p : List CAct) (hp : csShaped p = true) :
    depthN p = 0 ∧
      (∀ l, l <:+ p → headTcall l = true → 0 < depthN l) ∧
      (∀ l, l <:+ p → headRelease l = true → 0 < depthN l) ∧
      (∀ l, l <:+ p → depthN l = 0 → l = [] ∨ l = p) := by
  unfold csShaped at hp
  rw [Bool.and_eq_true, List.all_eq_true] at hp
  obtain ⟨h0, hall⟩ := hp
  have hitem : ∀ l, l <:+ p →
      (headTcall l = true → 0 < depthN l) ∧
      (headRelease l = true → 0 < depthN l) ∧
      (depthN l = 0 → l = [] ∨ l = p) := by
    intro l hl
    have h := hall l ((List.mem_tails l p).mpr hl)
    simp only [Bool.and_eq_true, Bool.or_eq_true, Bool.not_eq_true', decide_eq_true_eq,
      beq_iff_eq, List.isEmpty_iff] at h
    obtain ⟨⟨ht, hr⟩, hz⟩ := h
    refine ⟨?_, ?_, ?_⟩
    · intro hh
      rcases ht with ht | ht
      · rw [hh] at ht; cases ht
      · exact ht
    · intro hh
      rcases hr with hr | hr
      · rw [hh] at hr; cases hr
      · exact hr
    · intro hh
      rcases hz with hz | hz | hz
      · exact absurd hh (by simpa using hz)
      · exact Or.inl hz
      · exact Or.inr (List.IsSuffix.eq_of_length hl hz)
  refine ⟨by simpa using h0, ?_, ?_, ?_⟩
  · intro l hl hh
    exact (hitem l hl).1 hh
  · intro l hl hh
    exact (hitem l hl).2.1 hh
  · intro l hl hh
    exact (hitem l hl).2.2 hh

theorem depthN_nil : depthN [] = 0 := rfl

theorem depthN_cons_acq (rest : List CAct) :
    depthN (CAct.acquire :: rest) = depthN rest - 1 := by
  unfold depthN
  rw [show relCount (CAct.acquire :: rest) = relCount rest from rfl,
    show acqCount (CAct.acquire :: rest) = acqCount rest + 1 from rfl]
  push_cast
  ring

theorem depthN_cons_rel (rest : List CAct) :
    depthN (CAct.release :: rest) = depthN rest + 1 := by
  unfold depthN
  rw [show relCount (CAct.release :: rest) = relCount rest + 1 from rfl,
    show acqCount (CAct.release :: rest) = acqCount rest from rfl]
  push_cast
  ring

theorem depthN_cons_tcall (op : TOp) (rest : List CAct) :
    depthN (CAct.tcall op :: rest) = depthN rest := by
  unfold depthN
  rw [show relCount (CAct.tcall op :: rest) = relCount rest from rfl,
    show acqCount (CAct.tcall op :: rest) = acqCount rest from rfl]

theorem hasT_cons (a : CAct) (rest : List CAct) :
    hasT (a :: rest) = (isTcall a || hasT rest) := rfl

theorem lastPenalty_of_getLast (l : List Bool) (t : Bool) (h : l.getLast? = some t) :
    lastPenalty l t = 0 := by
  unfold lastPenalty
  rw [h]
  simp

theorem lastPenalty_le_one (l : List Bool) (t : Bool) : lastPenalty l t ≤ 1 := by
  unfold lastPenalty
  cases l.getLast? with
  | none => exact Nat.zero_le 1
  | some a =>
    by_cases h : a = t <;> simp [h]

theorem lastPenalty_cons_cons (a b : Bool) (r : List Bool) (t : Bool) :
    lastPenalty (a :: b :: r) t = lastPenalty (b :: r) t := by
  unfold lastPenalty
  rw [List.getLast?_cons_cons]

theorem switches_snoc (l : List Bool) (t : Bool) :
    switches (l ++ [t]) = switches l + lastPenalty l t := by
  induction l with
  | nil => rfl
  | cons a rest ih =>
    cases rest with
    | nil =>
      show (if a = t then 0 else 1) + switches [t] = switches [a] + lastPenalty [a] t
      by_cases h : a = t <;> simp [h, switches, lastPenalty, List.getLast?]
    | cons b rest2 =>
      show (if a = b then 0 else 1) + switches ((b :: rest2) ++ [t])
        = ((if a = b then 0 else 1) + switches (b :: rest2)) + lastPenalty (a :: b :: rest2) t
      rw [ih, lastPenalty_cons_cons]
      omega

theorem switches_all_eq (l : List Bool) (u : Bool) (h : ∀ a ∈ l, a = u) :
    switches l = 0 := by
  induction l with
  | nil => rfl
  | cons a rest ih =>
    cases rest with
    | nil => rfl
    | cons b r2 =>
      have ha : a = u := h a (by simp)
      have hb : b = u := h b (by simp)
      have hrest : ∀ x ∈ b :: r2, x = u := by
        intro x hx
        exact h x (List.mem_cons_of_mem a hx)
      show (if a = b then 0 else 1) + switches (b :: r2) = 0
      rw [if_pos (by rw [ha, hb]), ih hrest]

theorem remOf_mkStep (c : Config) (t : Bool) (rest : List CAct) (lk : RL)
    (ts : List Bool) (u : Bool) :
    ({ c.setRem t rest with lock := lk, tseq := ts } : Config).remOf u
      = if u = t then rest else c.remOf u := by
  cases t <;> cases u <;> simp [Config.setRem, Config.remOf]

theorem lock_mkStep (c : Config) (t : Bool) (rest : List CAct) (lk : RL)
    (ts : List Bool) :
    ({ c.setRem t rest with lock := lk, tseq := ts } : Config).lock = lk := by
  cases t <;> rfl

theorem tseq_mkStep (c : Config) (t : Bool) (rest : List CAct) (lk : RL)
    (ts : List Bool) :
    ({ c.setRem t rest with lock := lk, tseq := ts } : Config).tseq = ts := by
  cases t <;> rfl

theorem bool_other (u t : Bool) (h : u ≠ t) : u = !t := by
  cases u <;> cases t <;> simp_all

theorem inv_step_acquire (P0 P1 : List CAct) (c : Config) (hc : Inv P0 P1 c) (t : Bool)
    (rest : List CAct) (hrem : c.remOf t = CAct.acquire :: rest) (l2 : RL)
    (hls : lockStep c.lock t CAct.acquire = some l2) :
    Inv P0 P1 { c.setRem t rest with lock := l2, tseq := c.tseq } := by
  obtain ⟨suf, ownNone, ownSome, traceOK, active⟩ := hc
  have hsufRest : rest <:+ progOf P0 P1 t :=
    (List.suffix_cons CAct.acquire rest).trans (hrem ▸ suf t)
  have hdepA : depthN (c.remOf t) = depthN rest - 1 := by
    rw [hrem, depthN_cons_acq]
  have hsufNew : ∀ u : Bool,
      ({ c.setRem t rest with lock := l2, tseq := c.tseq } : Config).remOf u
        <:+ progOf P0 P1 u := by
    intro u
    rw [remOf_mkStep]
    by_cases hu : u = t
    · rw [if_pos hu, hu]
      exact hsufRest
    · rw [if_neg hu]
      exact suf u
  have hactiveDead : c.lock.owner = none →
      ∀ u : Bool, u ∈ c.tseq →
        hasT (({ c.setRem t rest with lock := l2, tseq := c.tseq } : Config).remOf u)
          = true → False := by
    intro howner u hu hhas
    rw [remOf_mkStep] at hhas
    by_cases hut : u = t
    · subst hut
      rw [if_pos rfl] at hhas
      have hold : hasT (c.remOf u) = true := by
        rw [hrem, hasT_cons]
        simpa [isTcall] using hhas
      have := (active u hu hold).1
      rw [howner] at this
      cases this
    · rw [if_neg hut] at hhas
      have := (active u hu hhas).1
      rw [howner] at this
      cases this
  simp only [lockStep] at hls
  cases howner : c.lock.owner with
  | none =>
    rw [howner] at hls
    injection hls with hl2
    obtain ⟨hcnt0, hdep0⟩ := ownNone howner
    refine ⟨hsufNew, ?_, ?_, ?_, ?_⟩
    · intro h
      rw [lock_mkStep, ← hl2] at h
      cases h
    · intro u hu
      rw [lock_mkStep, ← hl2] at hu
      have hut : u = t := by
        injection hu with h
        exact h.symm
      subst hut
      rw [lock_mkStep, ← hl2]
      refine ⟨?_, by exact Nat.one_pos, ?_⟩
      · rw [remOf_mkStep, if_pos rfl]
        have h1 := hdep0 u
        rw [hdepA] at h1
        show ((1 : Nat) : Int) = depthN rest
        push_cast
        omega
      · rw [remOf_mkStep, if_neg (by cases u <;> simp)]
        exact hdep0 (!u)
    · rw [tseq_mkStep]
      exact traceOK
    · intro u hu hhas
      rw [tseq_mkStep] at hu
      exact absurd hhas (by intro hh; exact hactiveDead howner u hu hh)
  | some o =>
    rw [howner] at hls
    have hls2 : (if o = t then
        some ({ owner := some t, count := c.lock.count + 1 } : RL) else none) = some l2 := hls
    by_cases hot : o = t
    · subst hot
      rw [if_pos rfl] at hls2
      injection hls2 with hl2
      obtain ⟨hcEq, hcPos, hcOther⟩ := ownSome o howner
      refine ⟨hsufNew, ?_, ?_, ?_, ?_⟩
      · intro h
        rw [lock_mkStep, ← hl2] at h
        cases h
      · intro u hu
        rw [lock_mkStep, ← hl2] at hu
        have hut : u = o := by
          injection hu with h
          exact h.symm
        subst hut
        rw [lock_mkStep, ← hl2]
        refine ⟨?_, by exact Nat.succ_pos _, ?_⟩
        · rw [remOf_mkStep, if_pos rfl]
          rw [hdepA] at hcEq
          show ((c.lock.count + 1 : Nat) : Int) = depthN rest
          push_cast
          omega
        · rw [remOf_mkStep, if_neg (by cases u <;> simp)]
          exact hcOther
      · rw [tseq_mkStep]
        exact traceOK
      · intro u hu hhas
        rw [tseq_mkStep] at hu
        rw [remOf_mkStep] at hhas
        by_cases hut : u = o
        · subst hut
          rw [if_pos rfl] at hhas
          have hold : hasT (c.remOf u) = true := by
            rw [hrem, hasT_cons]
            simpa [isTcall] using hhas
          obtain ⟨ho1, ho2⟩ := active u hu hold
          refine ⟨?_, by rw [tseq_mkStep]; exact ho2⟩
          rw [lock_mkStep, ← hl2]
        · rw [if_neg hut] at hhas
          obtain ⟨ho1, -⟩ := active u hu hhas
          rw [howner] at ho1
          injection ho1 with h
          exact absurd h.symm hut
    · rw [if_neg hot] at hls2
      cases hls2

theorem inv_step_release (P0 P1 : List CAct) (c : Config) (hc : Inv P0 P1 c) (t : Bool)
    (rest : List CAct) (hrem : c.remOf t = CAct.release :: rest) (l2 : RL)
    (hls : lockStep c.lock t CAct.release = some l2)
    (hzero : ∀ l, l <:+ progOf P0 P1 t → depthN l = 0 → l = [] ∨ l = progOf P0 P1 t) :
    Inv P0 P1 { c.setRem t rest with lock := l2, tseq := c.tseq } := by
  obtain ⟨suf, ownNone, ownSome, traceOK, active⟩ := hc
  have hsufT : (CAct.release :: rest) <:+ progOf P0 P1 t := hrem ▸ suf t
  have hsufRest : rest <:+ progOf P0 P1 t :=
    (List.suffix_cons CAct.release rest).trans hsufT
  have hdepR : depthN (c.remOf t) = depthN rest + 1 := by
    rw [hrem, depthN_cons_rel]
  have hsufNew : ∀ u : Bool,
      ({ c.setRem t rest with lock := l2, tseq := c.tseq } : Config).remOf u
        <:+ progOf P0 P1 u := by
    intro u
    rw [remOf_mkStep]
    by_cases hu : u = t
    · rw [if_pos hu, hu]
      exact hsufRest
    · rw [if_neg hu]
      exact suf u
  simp only [lockStep] at hls
  cases howner : c.lock.owner with
  | none =>
    rw [howner] at hls
    have hls2 : (none : Option RL) = some l2 := hls
    cases hls2
  | some o =>
    rw [howner] at hls
    have hls2 : (if o = t then
        some (if c.lock.count ≤ 1 then ({ owner := none, count := 0 } : RL)
          else { owner := some t, count := c.lock.count - 1 }) else none) = some l2 := hls
    by_cases hot : o = t
    · subst hot
      rw [if_pos rfl] at hls2
      injection hls2 with hl2
      obtain ⟨hcEq, hcPos, hcOther⟩ := ownSome o howner
      rw [hdepR] at hcEq
      by_cases hcle : c.lock.count ≤ 1
      · rw [if_pos hcle] at hl2
        have hdrest : depthN rest = 0 := by omega
        refine ⟨hsufNew, ?_, ?_, ?_, ?_⟩
        · intro _
          constructor
          · rw [lock_mkStep, ← hl2]
          · intro u
            rw [remOf_mkStep]
            by_cases hu : u = o
            · rw [if_pos hu]
              exact hdrest
            · rw [if_neg hu]
              rw [bool_other u o hu]
              exact hcOther
        · intro u hu
          rw [lock_mkStep, ← hl2] at hu
          cases hu
        · rw [tseq_mkStep]
          exact traceOK
        · intro u hu hhas
          rw [tseq_mkStep] at hu
          rw [remOf_mkStep] at hhas
          by_cases hut : u = o
          · subst hut
            rw [if_pos rfl] at hhas
            rcases hzero rest hsufRest hdrest with hnil | hful
            · rw [hnil] at hhas
              cases hhas
            · have hlen := List.IsSuffix.length_le hsufT
              rw [← hful] at hlen
              simp at hlen
          · rw [if_neg hut] at hhas
            obtain ⟨ho1, -⟩ := active u hu hhas
            rw [howner] at ho1
            injection ho1 with h
            exact absurd h.symm hut
      · rw [if_neg hcle] at hl2
        refine ⟨hsufNew, ?_, ?_, ?_, ?_⟩
        · intro h
          rw [lock_mkStep, ← hl2] at h
          cases h
        · intro u hu
          rw [lock_mkStep, ← hl2] at hu
          have hut : u = o := by
            injection hu with h
            exact h.symm
          subst hut
          rw [lock_mkStep, ← hl2]
          refine ⟨?_, ?_, ?_⟩
          · rw [remOf_mkStep, if_pos rfl]
            show ((c.lock.count - 1 : Nat) : Int) = depthN rest
            omega
          · show 0 < c.lock.count - 1
            omega
          · rw [remOf_mkStep, if_neg (by cases u <;> simp)]
            exact hcOther
        · rw [tseq_mkStep]
          exact traceOK
        · intro u hu hhas
          rw [tseq_mkStep] at hu
          rw [remOf_mkStep] at hhas
          by_cases hut : u = o
          · subst hut
            rw [if_pos rfl] at hhas
            have hold : hasT (c.remOf u) = true := by
              rw [hrem, hasT_cons]
              simpa [isTcall] using hhas
            obtain ⟨ho1, ho2⟩ := active u hu hold
            refine ⟨?_, by rw [tseq_mkStep]; exact ho2⟩
            rw [lock_mkStep, ← hl2]
          · rw [if_neg hut] at hhas
            obtain ⟨ho1, -⟩ := active u hu hhas
            rw [howner] at ho1
            injection ho1 with h
            exact absurd h.symm hut
    · rw [if_neg hot] at hls2
      cases hls2

theorem inv_step_tcall (P0 P1 : List CAct) (c : Config) (hc : Inv P0 P1 c) (t : Bool)
    (op : TOp) (rest : List CAct) (hrem : c.remOf t = CAct.tcall op :: rest) (l2 : RL)
    (hls : lockStep c.lock t (CAct.tcall op) = some l2)
    (htc : ∀ l, l <:+ progOf P0 P1 t → headTcall l = true → 0 < depthN l) :
    Inv P0 P1 { c.setRem t rest with lock := l2, tseq := c.tseq ++ [t] } := by
  obtain ⟨suf, ownNone, ownSome, traceOK, active⟩ := hc
  have hls2 : (some c.lock : Option RL) = some l2 := hls
  injection hls2 with hl2
  have hsufT : (CAct.tcall op :: rest) <:+ progOf P0 P1 t := hrem ▸ suf t
  have hsufRest : rest <:+ progOf P0 P1 t :=
    (List.suffix_cons (CAct.tcall op) rest).trans hsufT
  have hdepT : depthN (c.remOf t) = depthN rest := by
    rw [hrem, depthN_cons_tcall]
  have hpos : 0 < depthN (c.remOf t) := htc (c.remOf t) (suf t) (by rw [hrem]; rfl)
  have howner : c.lock.owner = some t := by
    cases ho : c.lock.owner with
    | none =>
      obtain ⟨-, hdep⟩ := ownNone ho
      rw [hdep t] at hpos
      exact absurd hpos (by omega)
    | some u =>
      by_cases hut : u = t
      · rw [hut]
      · obtain ⟨-, -, hother⟩ := ownSome u ho
        rw [← bool_other t u (fun h => hut h.symm)] at hother
        rw [hother] at hpos
        exact absurd hpos (by omega)
  obtain ⟨hcEq, hcPos, hcOther⟩ := ownSome t howner
  refine ⟨?_, ?_, ?_, ?_, ?_⟩
  · intro u
    rw [remOf_mkStep]
    by_cases hu : u = t
    · rw [if_pos hu, hu]
      exact hsufRest
    · rw [if_neg hu]
      exact suf u
  · intro h
    rw [lock_mkStep, ← hl2, howner] at h
    cases h
  · intro u hu
    rw [lock_mkStep, ← hl2, howner] at hu
    have hut : u = t := by
      injection hu with h
      exact h.symm
    subst hut
    rw [lock_mkStep, ← hl2]
    refine ⟨?_, hcPos, ?_⟩
    · rw [remOf_mkStep, if_pos rfl]
      rw [hdepT] at hcEq
      exact hcEq
    · rw [remOf_mkStep, if_neg (by cases u <;> simp)]
      exact hcOther
  · rw [tseq_mkStep, switches_snoc]
    by_cases hmem : t ∈ c.tseq
    · have hold : hasT (c.remOf t) = true := by
        rw [hrem, hasT_cons]
        simp [isTcall]
      obtain ⟨-, hlast⟩ := active t hmem hold
      rw [lastPenalty_of_getLast _ _ hlast]
      omega
    · have hall : ∀ a ∈ c.tseq, a = !t := by
        intro a ha
        exact bool_other a t (fun h => hmem (h ▸ ha))
      rw [switches_all_eq _ _ hall]
      have := lastPenalty_le_one c.tseq t
      omega
  · intro u hu hhas
    rw [tseq_mkStep] at hu
    rw [remOf_mkStep] at hhas
    by_cases hut : u = t
    · subst hut
      refine ⟨?_, ?_⟩
      · rw [lock_mkStep, ← hl2]
        exact howner
      · rw [tseq_mkStep]
        exact List.getLast?_concat c.tseq
    · rw [if_neg hut] at hhas
      have humem : u ∈ c.tseq := by
        rcases List.mem_append.mp hu with h | h
        · exact h
        · exact absurd (List.mem_singleton.mp h) hut
      obtain ⟨ho1, -⟩ := active u humem hhas
      rw [howner] at ho1
      injection ho1 with h
      exact absurd h.symm hut

theorem inv_init (P0 P1 : List CAct) (h0 : csShaped P0 = true) (h1 : csShaped P1 = true) :
    Inv P0 P1 { lock := { owner := none, count := 0 }, rem0 := P0, rem1 := P1, tseq := [] } := by
  obtain ⟨b0, -, -, -⟩ := csShaped_facts P0 h0
  obtain ⟨b1, -, -, -⟩ := csShaped_facts P1 h1
  refine ⟨?_, ?_, ?_, ?_, ?_⟩
  · intro u
    cases u <;> exact List.suffix_refl _
  · intro _
    refine ⟨rfl, ?_⟩
    intro u
    cases u
    · exact b0
    · exact b1
  · intro u hu
    cases hu
  · exact Nat.zero_le 1
  · intro u hu
    cases hu

theorem stepThread_nil (c : Config) (t : Bool) (h : c.remOf t = []) :
    stepThread c t = c := by
  simp only [stepThread, h]

theorem stepThread_blocked (c : Config) (t : Bool) (a : CAct) (rest : List CAct)
    (h : c.remOf t = a :: rest) (hl : lockStep c.lock t a = none) :
    stepThread c t = c := by
  simp only [stepThread, h, hl]

theorem stepThread_go (c : Config) (t : Bool) (a : CAct) (rest : List CAct) (l2 : RL)
    (h : c.remOf t = a :: rest) (hl : lockStep c.lock t a = some l2) :
    stepThread c t
      = { c.setRem t rest with lock := l2, tseq := if isTcall a then c.tseq ++ [t] else c.tseq } := by
  simp only [stepThread, h, hl]

theorem inv_step (P0 P1 : List CAct) (h0 : csShaped P0 = true) (h1 : csShaped P1 = true)
    (c : Config) (hc : Inv P0 P1 c) (t : Bool) : Inv P0 P1 (stepThread c t) := by
  have hcs : csShaped (progOf P0 P1 t) = true := by
    cases t
    · exact h0
    · exact h1
  cases hrem : c.remOf t with
  | nil =>
    rw [stepThread_nil c t hrem]
    exact hc
  | cons a rest =>
    cases hls : lockStep c.lock t a with
    | none =>
      rw [stepThread_blocked c t a rest hrem hls]
      exact hc
    | some l2 =>
      rw [stepThread_go c t a rest l2 hrem hls]
      cases a with
      | acquire => exact inv_step_acquire P0 P1 c hc t rest hrem l2 hls
      | release =>
        exact inv_step_release P0 P1 c hc t rest hrem l2 hls
          (csShaped_facts (progOf P0 P1 t) hcs).2.2.2
      | tcall op =>
        exact inv_step_tcall P0 P1 c hc t op rest hrem l2 hls
          (csShaped_facts (progOf P0 P1 t) hcs).2.1

theorem inv_run (P0 P1 : List CAct) (h0 : csShaped P0 = true) (h1 : csShaped P1 = true)
    (c : Config) (hc : Inv P0 P1 c) (sched : List Bool) :
    Inv P0 P1 (runSched c sched) := by
  induction sched generalizing c with
  | nil => exact hc
  | cons t ts ih => exact ih (stepThread c t) (inv_step P0 P1 h0 h1 c hc t)

theorem inv_progress (P0 P1 : List CAct) (h0 : csShaped P0 = true) (h1 : csShaped P1 = true)
    (c : Config) (hc : Inv P0 P1 c) (hne : c.rem0 ≠ [] ∨ c.rem1 ≠ []) :
    ∃ u, enabledT c u = true := by
  obtain ⟨suf, ownNone, ownSome, traceOK, active⟩ := hc
  have hcs : ∀ u, csShaped (progOf P0 P1 u) = true := by
    intro u
    cases u
    · exact h0
    · exact h1
  cases howner : c.lock.owner with
  | some u =>
    refine ⟨u, ?_⟩
    obtain ⟨hcEq, hcPos, -⟩ := ownSome u howner
    cases hrem : c.remOf u with
    | nil =>
      rw [hrem, depthN_nil] at hcEq
      exact absurd hcEq (by omega)
    | cons a r =>
      cases a <;> simp [enabledT, hrem, lockStep, howner]
  | none =>
    obtain ⟨-, hdep⟩ := ownNone howner
    have hex : ∃ u, c.remOf u ≠ [] := by
      cases hne with
      | inl h => exact ⟨false, h⟩
      | inr h => exact ⟨true, h⟩
    obtain ⟨u, hu⟩ := hex
    cases hrem : c.remOf u with
    | nil => exact absurd hrem hu
    | cons a r =>
      refine ⟨u, ?_⟩
      cases a with
      | acquire => simp [enabledT, hrem, lockStep, howner]
      | release =>
        have hfr := (csShaped_facts (progOf P0 P1 u) (hcs u)).2.2.1
        have hcontra := hfr (c.remOf u) (suf u) (by rw [hrem]; rfl)
        rw [hdep u] at hcontra
        exact absurd hcontra (by omega)
      | tcall op =>
        have hft := (csShaped_facts (progOf P0 P1 u) (hcs u)).2.1
        have hcontra := hft (c.remOf u) (suf u) (by rw [hrem]; rfl)
        rw [hdep u] at hcontra
        exact absurd hcontra (by omega)

/-! ## Claim theorems -/

/-- C1: invoking a command node with forceQuery unset acts as a query
exactly when the argument tuple is empty and as a write exactly when
it is non empty; the query string is the path, then a question mark,
then (only when arguments were passed) a space and the arguments
joined by the configured separator; the write string is the path, a
space and the joined arguments; forceQuery = true or false overrides
the default in either direction. -/
theorem C1_invoke_query_write_modes :
    ∀ (p : Property) (v : String) (vs : List String) (b : Bool),
      p.callMsg [] none = (true, p.name ++ "?") ∧
      p.callMsg (v :: vs) none
        = (false, p.name ++ (" " ++ joinSep p.argSeparator (v :: vs))) ∧
      (p.callMsg [] (some b)).1 = b ∧
      (p.callMsg (v :: vs) (some b)).1 = b ∧
      p.callMsg (v :: vs) (some true)
        = (true, p.name ++ "?" ++ (" " ++ joinSep p.argSeparator (v :: vs))) ∧
      p.callMsg [] (some false) = (false, p.name) := by
  intro p v vs b
  refine ⟨?_, ?_, ?_, ?_, ?_, ?_⟩ <;> cases b <;>
    simp [Property.callMsg]

/-- C2: a chain of name accesses starting from a root node composes to
the colon joined uppercased segments, grouping the accesses in any way
yields the same node as the flat chain, and a child access is pure: it
builds a new node (equal to the one step chain) and keeps the argument
separator. -/
theorem C2_chain_composition :
    (∀ (n1 sep : String) (names : List String),
      (chainFrom (Property.ofName n1 sep) names).name
        = joinSep ":" ((n1 :: names).map upStr)) ∧
    (∀ (p : Property) (xs ys : List String),
      chainFrom (chainFrom p xs) ys = chainFrom p (xs ++ ys)) ∧
    (∀ (p : Property) (a : String),
      p.child a = chainFrom p [a] ∧ (p.child a).argSeparator = p.argSeparator) := by
  refine ⟨?_, ?_, ?_⟩
  · intro n1 sep names
    have h : upStr (Property.ofName n1 sep).name = (Property.ofName n1 sep).name :=
      upStr_idem n1
    rw [chainFrom_name names _ h]
    simp [Property.ofName, List.map_cons]
  · intro p xs ys
    simp [chainFrom, List.foldl_append]
  · intro p a
    exact ⟨rfl, rfl⟩

/-- C3 counterexample: the resolved id is not always the full matched
resource string from the list.  For port COM3 and visible list
["ASRL3::INSTRUMENT"], the built pattern matches exactly one resource,
yet resolution returns the matched prefix "ASRL3::INSTR", which is not
an element of the list. -/
theorem C3_resolved_id_counterexample :
    resolveWindows "COM3" ["ASRL3::INSTRUMENT"] = Except.ok "ASRL3::INSTR" ∧
      (List.filterMap (reMatch comPat3) ["ASRL3::INSTRUMENT"]).length = 1 ∧
      "ASRL3::INSTR" ∉ ["ASRL3::INSTRUMENT"] :=
  ⟨by rfl, by rfl, by decide⟩

/-- C3 amended: with exact matching enabled, when the built pattern
matches exactly one visible resource, resolution succeeds and the
resolved id is the portion of that unique resource the pattern matched
(the match's group 0, a leading segment of the resource string); it
equals the full resource string whenever the pattern consumes it
entirely, as in the two concrete examples of the claim. -/
theorem C3_resolved_id_amended :
    (∀ (pat : List Re) (rs : List String) (r : String),
      matchResource pat rs = Except.ok r →
        ∃ res, res ∈ rs ∧ reMatch pat res = some r ∧ ∃ t, r.data ++ t = res.data) ∧
    resolveWindows "COM3" ["ASRL3::INSTR", "USB0::1234::5678::INSTR"]
      = Except.ok "ASRL3::INSTR" ∧
    resolveWindows "USB0" ["ASRL3::INSTR", "USB0::1234::5678::INSTR"]
      = Except.ok "USB0::1234::5678::INSTR" := by
  refine ⟨?_, by rfl, by rfl⟩
  intro pat rs r h
  obtain ⟨res, hmem, hre⟩ :=
    exists_source_of_filterMap_eq (reMatch pat) rs r ((matchResource_ok_iff pat rs r).mp h)
  exact ⟨res, hmem, hre, reMatch_matched_is_start pat res r hre⟩

/-- Witness for the amended C3 at the concrete counterexample input. -/
theorem C3_resolved_id_amended_witness :
    ∃ res, res ∈ ["ASRL3::INSTRUMENT"] ∧
      reMatch comPat3 res = some "ASRL3::INSTR" ∧
      ∃ t, ("ASRL3::INSTR" : String).data ++ t = res.data :=
  C3_resolved_id_amended.1 comPat3 ["ASRL3::INSTRUMENT"] "ASRL3::INSTR" (by rfl)

/-- C4: with exact matching enabled, resolution demands exactly one
case insensitive match: an empty match set yields the resource not
found error, two or more matches yield the ambiguous resource error,
and success happens exactly on a singleton match set (the resolver
never silently picks the first of several matches); in particular COM4
against the two element list fails with resource not found, and USB
against a list with two USB entries fails with ambiguous resource. -/
theorem C4_exactly_one_match_required :
    (∀ (pat : List Re) (rs : List String),
      (matchResource pat rs = Except.error ResErr.resourceNotFound ↔
        rs.filterMap (reMatch pat) = []) ∧
      (matchResource pat rs = Except.error ResErr.ambiguousResource ↔
        2 ≤ (rs.filterMap (reMatch pat)).length) ∧
      (∀ r, matchResource pat rs = Except.ok r ↔
        rs.filterMap (reMatch pat) = [r])) ∧
    resolveWindows "COM4" ["ASRL3::INSTR", "USB0::1234::5678::INSTR"]
      = Except.error ResErr.resourceNotFound ∧
    resolveWindows "USB" ["USB::1234::5678::INSTR", "USB::8765::4321::INSTR"]
      = Except.error ResErr.ambiguousResource :=
  ⟨fun pat rs =>
    ⟨matchResource_notFound_iff pat rs, matchResource_ambiguous_iff pat rs,
      fun r => matchResource_ok_iff pat rs r⟩,
    by rfl, by rfl⟩

/-- C8: val2state is idempotent: whenever an accepted input maps to a
state token, feeding that token back reproduces it (the canonical
tokens ON and OFF map to themselves). -/
theorem C8_val2state_idempotent :
    ∀ (v : PyVal) (st : String), val2state v = Except.ok st →
      val2state (PyVal.str st) = Except.ok st := by
  intro v st h
  unfold val2state at h
  cases hb : val2bool v with
  | ok b =>
    rw [hb] at h
    cases b <;> simp at h <;> rw [← h] <;> rfl
  | error e =>
    rw [hb] at h
    simp at h

/-- Witness for C8 at a concrete accepted input. -/
theorem C8_val2state_idempotent_witness :
    val2state (PyVal.str "oN") = Except.ok "ON" ∧
      val2state (PyVal.str "ON") = Except.ok "ON" :=
  ⟨by rfl, C8_val2state_idempotent (PyVal.str "oN") "ON" (by rfl)⟩

/-- C5: with a (truthy) handshake token configured, a write and a
query each perform exactly one additional read right after the
transport call; when the text read equals the token the transport
result is returned, otherwise the operation fails with a handshake
error carrying the received text while the connection state is
unchanged; a plain read performs no additional read and no handshake
check. -/
theorem C5_handshake_write_query_read :
    ∀ (s : Session) (r : PyResource) (t : String),
      s.inst = some r → r.sessionOpen = true → s.handshake = some t → t ≠ "" →
      (∀ msg hs rest, r.reads = hs :: rest →
        s.writeOp msg =
          ({ s with inst := some { r with reads := rest, log := r.log ++ [TOp.write msg, TOp.read] } },
            if hs = t then Except.ok msg.length
            else Except.error (Err.handshakeFailure hs)) ∧
        (s.writeOp msg).1.connectedB = s.connectedB) ∧
      (∀ msg resp hs rest, r.reads = resp :: hs :: rest →
        s.queryOp msg =
          ({ s with inst := some { r with reads := rest, log := r.log ++ [TOp.query msg, TOp.read] } },
            if hs = t then Except.ok resp
            else Except.error (Err.handshakeFailure hs)) ∧
        (s.queryOp msg).1.connectedB = s.connectedB) ∧
      (∀ hs rest, r.reads = hs :: rest →
        s.readOp =
          ({ s with inst := some { r with reads := rest, log := r.log ++ [TOp.read] } }, Except.ok hs)) := by
  intro s r t hi ho hh ht
  refine ⟨?_, ?_, ?_⟩
  · intro msg hs rest hr
    by_cases hcase : hs = t <;>
      simp [Session.writeOp, Session.handleHandshake, Session.readOp, Session.connectedB,
        PyResource.doWrite, PyResource.doRead, hi, ho, hh, ht, hr, hcase]
  · intro msg resp hs rest hr
    by_cases hcase : hs = t <;>
      simp [Session.queryOp, Session.handleHandshake, Session.readOp, Session.connectedB,
        PyResource.doQuery, PyResource.doRead, hi, ho, hh, ht, hr, hcase]
  · intro hs rest hr
    simp [Session.readOp, PyResource.doRead, hi, ho, hr]

/-- Witness for C5: on the demonstration session with token OK and a
scripted ERR response, a write fails with the handshake error carrying
ERR and the session stays connected. -/
theorem C5_handshake_witness :
    (demoHsSession.writeOp "CMD").2 = Except.error (Err.handshakeFailure "ERR") ∧
      (demoHsSession.writeOp "CMD").1.connectedB = demoHsSession.connectedB := by
  have h := (C5_handshake_write_query_read demoHsSession demoHsResource "OK" rfl rfl
    rfl (by decide)).1 "CMD" "ERR" [] rfl
  refine ⟨?_, h.2⟩
  rw [h.1]
  simp

/-- C6: the requires_message_based wrapper looks up the unmangled name
of the private resource attribute, which the dynamic getattr fallback
turns into a Property, so the isinstance check is false for every
session — including one whose transport really is message based — and
read_raw, query_ascii_values and query_binary_values always raise the
type error before any I/O (the state is returned unchanged). -/
theorem C6_capability_gate_always_fires :
    ∀ (s : Session) (msg : String),
      isinstanceMessageBased s.dunderInstFromOutside = false ∧
      s.readRawOp = (s, Except.error (Err.typeError "read_raw")) ∧
      s.queryAsciiOp msg = (s, Except.error (Err.typeError "query_ascii_values")) ∧
      s.queryBinaryOp msg = (s, Except.error (Err.typeError "query_binary_values")) := by
  intro s msg
  refine ⟨rfl, ?_, ?_, ?_⟩ <;>
    simp [Session.readRawOp, Session.queryAsciiOp, Session.queryBinaryOp,
      Session.dunderInstFromOutside, isinstanceMessageBased]

/-- C7 counterexample: disconnect is not idempotent.  On a connected
session the first disconnect succeeds, and an immediate second
disconnect raises the invalid session error, because close is invoked
again on the already closed transport handle. -/
theorem C7_disconnect_counterexample :
    (demoConnected.disconnect).2 = Except.ok () ∧
      ((demoConnected.disconnect).1.disconnect).2 = Except.error Err.invalidSession :=
  ⟨by rfl, by rfl⟩

/-- C7 amended: disconnect on a session that never had a transport
object is a no-op and does not raise, and session teardown first
checks connected and never raises (in particular not when already
disconnected); but disconnect itself is not idempotent: after a
successful disconnect, a second disconnect re-invokes close on the
closed handle and raises the invalid session error. -/
theorem C7_disconnect_teardown_amended :
    (∀ s : Session, s.inst = none → s.disconnect = (s, Except.ok ())) ∧
    (∀ s : Session, (s.teardown).2 = Except.ok ()) ∧
    (∀ (s : Session) (r : PyResource), s.inst = some r → r.sessionOpen = true →
      (s.disconnect).2 = Except.ok () ∧
      ((s.disconnect).1.disconnect).2 = Except.error Err.invalidSession) := by
  refine ⟨?_, ?_, ?_⟩
  · intro s h
    simp [Session.disconnect, h]
  · intro s
    cases hi : s.inst with
    | none => simp [Session.teardown, Session.connectedB, hi]
    | some r =>
      by_cases ho : r.sessionOpen <;>
        simp [Session.teardown, Session.connectedB, Session.disconnect,
          PyResource.close, hi, ho]
  · intro s r hi ho
    constructor <;> simp [Session.disconnect, PyResource.close, hi, ho]

/-- Witness for the amended C7 on concrete sessions. -/
theorem C7_disconnect_teardown_amended_witness :
    demoUnconnected.disconnect = (demoUnconnected, Except.ok ()) ∧
      (demoConnected.teardown).2 = Except.ok () ∧
      ((demoConnected.disconnect).1.disconnect).2 = Except.error Err.invalidSession :=
  ⟨C7_disconnect_teardown_amended.1 demoUnconnected rfl,
    C7_disconnect_teardown_amended.2.1 demoConnected,
    (C7_disconnect_teardown_amended.2.2 demoConnected demoResource rfl rfl).2⟩

/-- C9: with two concurrent callers each running one session operation
(write, read or query), under every schedule of the interleaving
semantics the transport calls never interleave — the second caller's
transport call cannot start until the first caller's transport call
and handshake read have completed, because each operation holds the
re-entrant session lock for its whole duration — and no reachable
configuration is stuck: as long as some thread has actions left, some
thread can move (the re-entrant acquire of the handshake read never
deadlocks). -/
theorem C9_lock_serializes_transport :
    ∀ (hs : Bool) (op0 op1 : OpChoice) (sched : List Bool),
      switches (runSched (initConfig hs op0 op1) sched).tseq ≤ 1 ∧
      ((runSched (initConfig hs op0 op1) sched).rem0 ≠ [] ∨
          (runSched (initConfig hs op0 op1) sched).rem1 ≠ [] →
        ∃ u, enabledT (runSched (initConfig hs op0 op1) sched) u = true) := by
  intro hs op0 op1 sched
  have h0 := csShaped_actsOf hs op0
  have h1 := csShaped_actsOf hs op1
  have hinv : Inv (actsOf hs op0) (actsOf hs op1) (runSched (initConfig hs op0 op1) sched) :=
    inv_run (actsOf hs op0) (actsOf hs op1) h0 h1 (initConfig hs op0 op1)
      (inv_init (actsOf hs op0) (actsOf hs op1) h0 h1) sched
  exact ⟨hinv.traceOK,
    fun hne => inv_progress (actsOf hs op0) (actsOf hs op1) h0 h1 _ hinv hne⟩

/-- Witness for C9: two handshake queries, scheduled so the second
thread tries to start while the first holds the lock. -/
theorem C9_lock_serializes_transport_witness :
    switches (runSched (initConfig true (OpChoice.qu "A") (OpChoice.qu "B"))
        [false, true, false]).tseq ≤ 1 ∧
      ∃ u, enabledT (runSched (initConfig true (OpChoice.qu "A") (OpChoice.qu "B"))
        [false, true, false]) u = true :=
  ⟨(C9_lock_serializes_transport true (OpChoice.qu "A") (OpChoice.qu "B")
      [false, true, false]).1,
    (C9_lock_serializes_transport true (OpChoice.qu "A") (OpChoice.qu "B")
      [false, true, false]).2 (Or.inl (by decide))⟩

/-- C10: connect performs instrument I/O beyond opening the transport.
With a resource id set it opens the resource, applies the per resource
parameters, and with default arguments sends exactly one *IDN? query
before returning; with an explicit remote string it writes that string
instead; and with a handshake token configured the identification
query itself triggers the handshake read, so connect can fail with a
handshake error even though the transport opened successfully. -/
theorem C10_connect_sends_idn :
    ∀ (s : Session) (rid : String) (fresh : PyResource),
      s.rid = some rid → rid ≠ "" → s.inst = none →
      (∀ idn rest, s.handshake = none → fresh.reads = idn :: rest →
        s.connect none fresh =
          ({ s with inst := some { fresh with sessionOpen := true, params := s.resourceParams, reads := rest, log := fresh.log ++ [TOp.query "*IDN?"] } }, Except.ok ())) ∧
      (∀ msg, s.handshake = none →
        s.connect (some msg) fresh =
          ({ s with inst := some { fresh with sessionOpen := true, params := s.resourceParams, log := fresh.log ++ [TOp.write msg] } }, Except.ok ())) ∧
      (∀ t idn hs rest, s.handshake = some t → t ≠ "" →
        fresh.reads = idn :: hs :: rest → hs ≠ t →
        (s.connect none fresh).2 = Except.error (Err.handshakeFailure hs) ∧
        (s.connect none fresh).1.connectedB = true ∧
        (s.connect none fresh).1.inst =
          some { fresh with sessionOpen := true, params := s.resourceParams, reads := rest, log := fresh.log ++ [TOp.query "*IDN?", TOp.read] }) := by
  intro s rid fresh hrid hne hi
  refine ⟨?_, ?_, ?_⟩
  · intro idn rest hh hr
    simp [Session.connect, Session.queryOp, Session.handleHandshake,
      PyResource.doQuery, hrid, hne, hi, hh, hr]
  · intro msg hh
    simp [Session.connect, Session.writeOp, Session.handleHandshake,
      PyResource.doWrite, hrid, hne, hi, hh]
  · intro t idn hs rest hh ht hr hhs
    refine ⟨?_, ?_, ?_⟩ <;>
      simp [Session.connect, Session.queryOp, Session.handleHandshake, Session.readOp,
        Session.connectedB, PyResource.doQuery, PyResource.doRead,
        hrid, hne, hi, hh, ht, hr, hhs]

/-- Witness for C10: connecting the demonstration session opens the
transport, queries *IDN?, and fails on the scripted bad handshake while
the session ends up connected. -/
theorem C10_connect_sends_idn_witness :
    (demoConnectSession.connect none demoFresh).2
        = Except.error (Err.handshakeFailure "BAD") ∧
      (demoConnectSession.connect none demoFresh).1.connectedB = true :=
  ⟨((C10_connect_sends_idn demoConnectSession "USB0::1234::5678::INSTR" demoFresh
      rfl (by decide) rfl).2.2 "OK" "EASY-SCPI,MOCK,0,1.0" "BAD" [] rfl (by decide)
      rfl (by decide)).1,
    ((C10_connect_sends_idn demoConnectSession "USB0::1234::5678::INSTR" demoFresh
      rfl (by decide) rfl).2.2 "OK" "EASY-SCPI,MOCK,0,1.0" "BAD" [] rfl (by decide)
      rfl (by decide)).2.1⟩

end EasyScpi
